import Mathlib

/-!
Verification of the job-control core of `tsh.c` (a tiny Unix shell with job
control) against its natural-language specification.

The shallow embedding below translates the job table, its operations
(`addjob`, `deletejob`, `pid2jid`, `change_job_state`, `fgpid`, ...), the
command-line parser (`parseline`), the SIGCHLD reaping handler
(`sigchld_handler`), and the foreground-wait section of `eval` into pure Lean
functions.  Process ids, job ids and states are C `int`s, modelled as `Int`.
Calls that can terminate the whole shell process (`exit(1)` via
`unix_error` / the "Job not present in job list" paths) are modelled with the
`CallOutcome` type.  Output is modelled as values of the `Notice` type rather
than byte streams.
-/

namespace Tsh

/-- Constant `MAXJOBS` from tsh.c: max jobs at any point in time. -/
def MAXJOBS : Nat := 16

/-- Job state `UNDEF` (0). -/
def UNDEF : Int := 0

/-- Job state `FG` (1): running in foreground. -/
def FG : Int := 1

/-- Job state `BG` (2): running in background. -/
def BG : Int := 2

/-- Job state `ST` (3): stopped. -/
def ST : Int := 3

/-- Model of `struct job_t`: pid, jid, state and command line of one slot. -/
structure Job where
  pid : Int
  jid : Int
  state : Int
  cmdline : String
deriving DecidableEq, Repr

/-- Per `clearjob`, a cleared slot has pid 0, jid 0, state UNDEF, empty cmdline. -/
def emptyJob : Job := ⟨0, 0, UNDEF, ""⟩

/-- Model of `initjobs`: the initial job list, MAXJOBS cleared slots. -/
def initjobs : List Job := List.replicate MAXJOBS emptyJob

/-- The shell's job-table state: the `job_list` array plus the `nextjid`
global counter. -/
structure ShellSt where
  jobs : List Job
  nextjid : Int
deriving DecidableEq, Repr

/-- Initial shell state: cleared job list, `nextjid = 1`. -/
def initSt : ShellSt := ⟨initjobs, 1⟩

/-- Outcome of a call that may terminate the whole shell process:
`fatalExit n` models `exit(n)` reached inside the call. -/
inductive CallOutcome (α : Type) where
  | ok : α → CallOutcome α
  | fatalExit : Nat → CallOutcome α
deriving DecidableEq, Repr

/-- Model of `maxjid`: largest jid over all slots (cleared slots hold jid 0). -/
def maxjid (jobs : List Job) : Int :=
  jobs.foldl (fun m j => if j.jid > m then j.jid else m) 0

/-- The scan loop of `addjob`: find the first slot with pid 0, store the new
job there with jid `nj`, and post-increment `nextjid` with wraparound to 1
when it would exceed MAXJOBS.  `none` means no free slot. -/
def addjobScan (pid state : Int) (cmdline : String) (nj : Int) :
    List Job → Option (List Job × Int)
  | [] => none
  | j :: rest =>
    if j.pid = 0 then
      some (⟨pid, nj, state, cmdline⟩ :: rest,
            if nj + 1 > (MAXJOBS : Int) then 1 else nj + 1)
    else
      match addjobScan pid state cmdline nj rest with
      | some (rest2, nj2) => some (j :: rest2, nj2)
      | none => none

/-- Model of `addjob(job_list, pid, state, cmdline)`.  Returns the new state, the C
return value, and whether the "Tried to create too many jobs" diagnostic was
printed. -/
def addjob (st : ShellSt) (pid state : Int) (cmdline : String) :
    ShellSt × Int × Bool :=
  if pid < 1 then (st, 0, false)
  else
    match addjobScan pid state cmdline st.nextjid st.jobs with
    | some (jobs2, nj2) => (⟨jobs2, nj2⟩, 1, false)
    | none => (st, 0, true)

/-- The scan loop of `deletejob`: clear the first slot whose pid matches.
`none` means no slot matched. -/
def deletejobScan (pid : Int) : List Job → Option (List Job)
  | [] => none
  | j :: rest =>
    if j.pid = pid then some (emptyJob :: rest)
    else
      match deletejobScan pid rest with
      | some rest2 => some (j :: rest2)
      | none => none

/-- Model of `deletejob(job_list, pid)`: clear the matching slot and recompute
`nextjid` as `maxjid + 1`.  Returns the new state and the C return value. -/
def deletejob (st : ShellSt) (pid : Int) : ShellSt × Int :=
  if pid < 1 then (st, 0)
  else
    match deletejobScan pid st.jobs with
    | some jobs2 => (⟨jobs2, maxjid jobs2 + 1⟩, 1)
    | none => (st, 0)

/-- The scan loop of `pid2jid`: jid of the first slot whose pid matches,
0 if none matches. -/
def pid2jidScan (pid : Int) : List Job → Int
  | [] => 0
  | j :: rest => if j.pid = pid then j.jid else pid2jidScan pid rest

/-- Model of `pid2jid(pid)`: map process id to job id; 0 when pid < 1 or not found. -/
def pid2jid (jobs : List Job) (pid : Int) : Int :=
  if pid < 1 then 0 else pid2jidScan pid jobs

/-- The loop of `change_job_state`: set the state of the first slot whose jid
matches. -/
def setStateByJid (jid newState : Int) : List Job → List Job
  | [] => []
  | j :: rest =>
    if j.jid = jid then { j with state := newState } :: rest
    else j :: setStateByJid jid newState rest

/-- Model of `change_job_state(job_list, pid, new_state)`: look the job up via
`pid2jid`; when the job is not found the C code prints
"Job not present in job list" and calls `exit(1)`. -/
def change_job_state (st : ShellSt) (pid newState : Int) : CallOutcome ShellSt :=
  let job_id := pid2jid st.jobs pid
  if job_id = 0 then .fatalExit 1
  else .ok ⟨setStateByJid job_id newState st.jobs, st.nextjid⟩

/-- The scan loop of `fgpid`: pid of the first slot in state FG, else 0. -/
def fgpidScan : List Job → Int
  | [] => 0
  | j :: rest => if j.state = FG then j.pid else fgpidScan rest

/-- Model of `fgpid(job_list)`: pid of the current foreground job, 0 if none. -/
def fgpid (jobs : List Job) : Int := fgpidScan jobs

/-- Model of `getjobpid(job_list, pid)`: first slot whose pid matches, `none` when
pid < 1 or not found. -/
def getjobpid (jobs : List Job) (pid : Int) : Option Job :=
  if pid < 1 then none else jobs.find? (fun j => j.pid == pid)

/-- Number of live slots (pid different from 0); the slots `listjobs`
prints. -/
def liveCount (jobs : List Job) : Nat :=
  (jobs.filter (fun j => j.pid != 0)).length

/-- Number of slots in state FG. -/
def countFG (jobs : List Job) : Nat :=
  (jobs.filter (fun j => j.state == FG)).length

/-- jids of the live slots, in slot order. -/
def liveJids (jobs : List Job) : List Int :=
  (jobs.filter (fun j => j.pid != 0)).map Job.jid

/-- Signal number of SIGINT. -/
def SIGINT : Int := 2

/-- Signal number of SIGCHLD (Linux). -/
def SIGCHLD : Int := 17

/-- Signal number of SIGTSTP (Linux). -/
def SIGTSTP : Int := 20

/-- The `errno` value ECHILD: no child processes. -/
def ECHILD : Int := 10

/-- The line-oriented messages the shell emits, as structured values:
`stoppedBySignal jid pid sig` is "Job [jid] (pid) stopped by signal sig",
`terminatedBySignal jid pid sig` is "Job [jid] (pid) terminated by signal sig",
`bgLaunch jid pid cmd` is "[jid] (pid) cmd". -/
inductive Notice where
  | stoppedBySignal (jid pid sig : Int)
  | terminatedBySignal (jid pid sig : Int)
  | bgLaunch (jid pid : Int) (cmd : String)
deriving DecidableEq, Repr

/-- Command line stored in the first slot whose jid matches (the lookup loop
shared by `printjob` and the two notice printers); empty when none does. -/
def cmdlineOfJid (jobs : List Job) (jid : Int) : String :=
  match jobs.find? (fun j => j.jid == jid) with
  | some j => j.cmdline
  | none => ""

/-- Model of `printjob(pid, fd)`: prints "[jid] (pid) cmdline"; when `pid2jid` yields 0
the C code prints "Job not present in job list" and calls `exit(1)`. -/
def printjob (jobs : List Job) (pid : Int) : CallOutcome Notice :=
  let job_id := pid2jid jobs pid
  if job_id = 0 then .fatalExit 1
  else .ok (.bgLaunch job_id pid (cmdlineOfJid jobs job_id))

/-- Model of `print_sigint_job(job_list, pid, signal, fd)`: prints the termination
notice; fatal `exit(1)` when the pid is not in the table. -/
def print_sigint_job (jobs : List Job) (pid sig : Int) : CallOutcome Notice :=
  let job_id := pid2jid jobs pid
  if job_id = 0 then .fatalExit 1
  else .ok (.terminatedBySignal job_id pid sig)

/-- Model of `print_sigtstp_job(job_list, pid, signal, fd)`: prints the stop notice;
fatal `exit(1)` when the pid is not in the table. -/
def print_sigtstp_job (jobs : List Job) (pid sig : Int) : CallOutcome Notice :=
  let job_id := pid2jid jobs pid
  if job_id = 0 then .fatalExit 1
  else .ok (.stoppedBySignal job_id pid sig)

/-- Outcome of `check = waitpid(pid, &status, WUNTRACED)` in `eval`:
the monitored child stopped (WIFSTOPPED), was terminated by signal `sig`
(WIFSIGNALED with WTERMSIG `sig`), exited normally, or the call failed with
errno ECHILD, or with any other errno. -/
inductive WaitRes where
  | stopped
  | signaled (sig : Int)
  | exited
  | noChild
  | errOther
deriving DecidableEq, Repr

/-- The foreground-wait section of `eval` (tsh.c lines 375-396), for a given
outcome of the `waitpid(pid, &status, WUNTRACED)` call on the specific child
`pid`.  On stop: print the stop notice (with the SIGTSTP constant), set the
job's state to ST and return, keeping the job in the table.  On signal
termination: print the termination notice, then delete the job.  On normal
exit: delete the job silently.  `errno != ECHILD` failures hit
`unix_error` (= `exit(1)`). -/
def fgWait (st : ShellSt) (pid : Int) (res : WaitRes) :
    CallOutcome (ShellSt × List Notice) :=
  match res with
  | .errOther => .fatalExit 1
  | .stopped =>
    match print_sigtstp_job st.jobs pid SIGTSTP with
    | .fatalExit n => .fatalExit n
    | .ok note =>
      match change_job_state st pid ST with
      | .fatalExit n => .fatalExit n
      | .ok st2 => .ok (st2, [note])
  | .signaled sig =>
    match print_sigint_job st.jobs pid sig with
    | .fatalExit n => .fatalExit n
    | .ok note => .ok ((deletejob st pid).1, [note])
  | .exited => .ok ((deletejob st pid).1, [])
  | .noChild => .ok ((deletejob st pid).1, [])

/-- The parent-side tail of `eval` for an external command (tsh.c lines
369-401): register the job with state FG or BG, then either run the
foreground wait (`!bg`), or print the background-launch line via
`printjob`. -/
def evalParentAfterFork (st : ShellSt) (pid : Int) (bg : Bool) (cmd : String)
    (res : WaitRes) : CallOutcome (ShellSt × List Notice) :=
  let st1 := (addjob st pid (if bg then BG else FG) cmd).1
  if bg then
    match printjob st1.jobs pid with
    | .fatalExit n => .fatalExit n
    | .ok note => .ok (st1, [note])
  else
    fgWait st1 pid res

/-- What the `Execve` wrapper does (tsh.c lines 1109-1111): it calls
`execve` and nothing else.  On success the child's image is replaced; on
failure `execve` returns -1 and `Execve` returns to its caller — there is no
error check, no `exit`. -/
inductive ChildCont where
  | imageReplaced
  | retToCaller
deriving DecidableEq, Repr

/-- The `Execve` wrapper, as a function of whether the underlying `execve`
succeeds. -/
def Execve (execOk : Bool) : ChildCont :=
  if execOk then .imageReplaced else .retToCaller

/-- Where control in the child process ends up after the `Execve` call of
`eval` (line 362). -/
inductive ChildFate where
  | runsTargetProgram
  | fatalInShellCode
  | reentersShellLoop
deriving DecidableEq, Repr

/-- Control flow of the child process at the `Execve(tok.argv[0], ...)` call
in `eval` (line 362).  If `execve` fails, `Execve` returns and the child
falls out of the `if ((pid = Fork()) == 0)` block into the parent-side code
(lines 369-407) with its local `pid` still 0 (the value `Fork` returned in
the child): `addjob` with pid 0 is a no-op, and — for a foreground command —
`waitpid(0, ...)` finds no children (errno ECHILD), after which `eval`
returns into the shell's read/eval loop; for a background command,
`printjob(0, ...)` hits the "Job not present in job list" `exit(1)` path.
`st` is the child's copy of the job table at the exec point. -/
def childAfterExecCall (st : ShellSt) (bg : Bool) (execOk : Bool) : ChildFate :=
  match Execve execOk with
  | .imageReplaced => .runsTargetProgram
  | .retToCaller =>
    match evalParentAfterFork st 0 bg "" WaitRes.noChild with
    | .fatalExit _ => .fatalInShellCode
    | .ok _ => .reentersShellLoop

/-- A terminated child pending for `waitpid(-1, &status, WNOHANG)`:
`sig = some s` models WIFSIGNALED with WTERMSIG `s`, `sig = none` a normal
exit. -/
structure Zombie where
  pid : Int
  sig : Option Int
deriving DecidableEq, Repr

/-- Model of `sigchld_handler` (tsh.c lines 569-587).  `zombies` is the queue of
terminated children the successive `waitpid(-1, &status, WNOHANG)` calls
report (each call returns the next pid, without blocking); `running` is the
number of remaining children that are alive; `errno` is the value of `errno`
on entry (successful `waitpid` calls leave it unchanged).  When the queue is
empty, `waitpid` returns 0 if live children remain (leaving errno unchanged)
and otherwise returns -1 setting errno to ECHILD; the loop then exits and
the handler calls `unix_error` (= `exit(1)`) unless `errno == ECHILD`.
For each reaped child: if it was terminated by a signal, print the
termination notice via `print_sigint_job`; then `deletejob` it. -/
def sigchld_handler : List Zombie → Nat → Int → ShellSt →
    CallOutcome (ShellSt × List Notice)
  | [], running, errno, st =>
    let errno2 := if running = 0 then ECHILD else errno
    if errno2 ≠ ECHILD then .fatalExit 1
    else .ok (st, [])
  | z :: rest, running, errno, st =>
    match z.sig with
    | some s =>
      match print_sigint_job st.jobs z.pid s with
      | .fatalExit n => .fatalExit n
      | .ok note =>
        match sigchld_handler rest running errno (deletejob st z.pid).1 with
        | .fatalExit n => .fatalExit n
        | .ok (st2, notes) => .ok (st2, note :: notes)
    | none => sigchld_handler rest running errno (deletejob st z.pid).1

/-- The job-table mutations the dispatcher and the handlers perform, each
taken from a concrete code point of tsh.c:
`launch pid bg cmd` is the parent-side `addjob` of `eval` (line 369, state
FG when `bg` is false);
`waitStopped pid` is the stop branch of the foreground wait
(`change_job_state(job_list, pid, ST)`, line 385);
`waitTerminated pid` is the terminal branch (`deletejob`, line 393);
`builtinFG pid` is the `fg` built-in (`change_job_state(job_list, pid, FG)`,
line 296 — note the `fg` built-in never reaches the wait code, because the
`else if` on line 326 is skipped when a built-in ran);
`builtinBG pid` is the `bg` built-in (`change_job_state(job_list, pid, BG)`,
line 314);
`reap pid` is the handler's `deletejob` (line 580). -/
inductive Ev where
  | launch (pid : Int) (bg : Bool) (cmd : String)
  | waitStopped (pid : Int)
  | waitTerminated (pid : Int)
  | builtinFG (pid : Int)
  | builtinBG (pid : Int)
  | reap (pid : Int)
deriving DecidableEq, Repr

/-- Effect of one event on the shell state. -/
def evStep (st : ShellSt) : Ev → CallOutcome ShellSt
  | .launch pid bg cmd => .ok (addjob st pid (if bg then BG else FG) cmd).1
  | .waitStopped pid => change_job_state st pid ST
  | .waitTerminated pid => .ok (deletejob st pid).1
  | .builtinFG pid => change_job_state st pid FG
  | .builtinBG pid => change_job_state st pid BG
  | .reap pid => .ok (deletejob st pid).1

/-- Run a sequence of events; a fatal exit aborts the run. -/
def evRun (st : ShellSt) : List Ev → CallOutcome ShellSt
  | [] => .ok st
  | e :: rest =>
    match evStep st e with
    | .ok st2 => evRun st2 rest
    | .fatalExit n => .fatalExit n

/-- A shell state is reachable when some event sequence leads to it from the
initial state. -/
def Reachable (st : ShellSt) : Prop :=
  ∃ evs, evRun initSt evs = .ok st

/-- An interleaving the shell can produce: launch a foreground job (pid 100); it
stops (ctrl-z path of the foreground wait); resume it with the `fg` built-in
(which marks it FG but never waits — `eval` returns to the prompt); then
launch a second foreground job (pid 101), whose parent-side `addjob` runs at
line 369. -/
def twoFgTrace : List Ev :=
  [.launch 100 false "sleep 100", .waitStopped 100,
   .builtinFG 100, .launch 101 false "sleep 101"]

/-- An event sequence exercising jid wraparound: 15 background launches
(pids 1..15, jids 1..15, nextjid 16), reap pid 2 (nextjid := maxjid+1 = 16),
launch pid 16 (jid 16, nextjid wraps to 1), launch pid 17 (jid 1 — while
pid 1 still holds jid 1). -/
def dupJidTrace : List Ev :=
  ((List.range 15).map (fun k => Ev.launch ((k : Int) + 1) true "mycmd &")) ++
    [.reap 2, .launch 16 true "mycmd &", .launch 17 true "mycmd &"]

/-- A set of the three signals `eval` manipulates, as its blocked-flags. -/
structure SigSet where
  chld : Bool
  int : Bool
  tstp : Bool
deriving DecidableEq, Repr

/-- Set `mask` of `eval`: SIGCHLD, SIGINT and SIGTSTP (lines 245, 246, 248). -/
def evalMask : SigSet := ⟨true, true, true⟩

/-- Set `mask2` of `eval`: SIGINT and SIGTSTP only (lines 247, 249). -/
def evalMask2 : SigSet := ⟨false, true, true⟩

/-- The mask operations and job-table actions of `eval`'s foreground path,
in program order. -/
inductive MaskStep where
  | block (s : SigSet)
  | unblock (s : SigSet)
  | registerJob
  | waitObserve
  | setStateStop
  | removeJob
deriving DecidableEq, Repr

/-- Trace of `eval`'s foreground path (tsh.c lines 243-396) as the sequence of
signal-mask operations and job-table actions it performs:
`Sigprocmask(SIG_BLOCK, &mask)` (line 250); the parent-side `addjob`
(line 369); `Sigprocmask(SIG_UNBLOCK, &mask2)` (line 372);
`waitpid(pid, &status, WUNTRACED)` returning (line 377); then either the
stop branch (`change_job_state ST`, line 385, and `return` — SIGCHLD stays
blocked), or the terminal branch (`deletejob`, line 393, then
`Sigprocmask(SIG_UNBLOCK, &mask)`, line 394). -/
def evalFgMaskTrace (stoppedCase : Bool) : List MaskStep :=
  [.block evalMask, .registerJob, .unblock evalMask2, .waitObserve] ++
    (if stoppedCase then [.setStateStop]
     else [.removeJob, .unblock evalMask])

/-- Effect of one `MaskStep` on the blocked-signal set. -/
def applyStep (cur : SigSet) : MaskStep → SigSet
  | .block s => ⟨cur.chld || s.chld, cur.int || s.int, cur.tstp || s.tstp⟩
  | .unblock s => ⟨cur.chld && !s.chld, cur.int && !s.int, cur.tstp && !s.tstp⟩
  | _ => cur

/-- Blocked-signal set after running a list of steps from `start`. -/
def blockedAfter (start : SigSet) (steps : List MaskStep) : SigSet :=
  steps.foldl applyStep start

/-- Argument delimiters of `parseline`: space, tab, CR, LF. -/
def isDelim (c : Char) : Bool :=
  c = ' ' || c = Char.ofNat 9 || c = Char.ofNat 13 || c = Char.ofNat 10

/-- Single-quote character. -/
def squote : Char := Char.ofNat 39

/-- Double-quote character. -/
def dquote : Char := Char.ofNat 34

/-- The `switch (parsing_state)` of `parseline` (lines 505-518): record the
token as the next argument, the input file, or the output file; any other
parsing state is the "Ambiguous I/O redirection" error (`none`). -/
def recordTok (ps : Nat) (argv : List String) (inf out : Option String)
    (tok : String) : Option (List String × Option String × Option String) :=
  match ps with
  | 0 => some (argv ++ [tok], inf, out)
  | 1 => some (argv, some tok, out)
  | 2 => some (argv, inf, some tok)
  | _ => none

/-- Result of `parseline`'s tokenizing loop: `err` models `return -1`;
`done argv inf out ps` models leaving the loop with the given argument
vector, redirect targets and final `parsing_state`. -/
inductive LoopRes where
  | err
  | done (argv : List String) (inf out : Option String) (ps : Nat)
deriving DecidableEq, Repr

/-- The tokenizing loop of `parseline` (lines 460-525).  Each iteration:
skip delimiters; stop at end of line; a leading `<` or `>` switches the
parsing state (erroring on a duplicate redirect); a leading quote makes the
token run to the matching quote (error if unmatched); otherwise the token
runs to the next delimiter; the token is recorded according to the parsing
state, which resets to normal; the loop breaks once `argc >= MAXARGS-1`.
The fuel argument only bounds recursion; callers pass `length + 1`, which a
loop consuming at least one character per iteration never exhausts. -/
def parseLoop : Nat → List Char → Nat → List String → Option String →
    Option String → LoopRes
  | 0, _, _, _, _, _ => .err
  | fuel + 1, buf, ps, argv, inf, out =>
    match buf.dropWhile isDelim with
    | [] => .done argv inf out ps
    | c :: rest =>
      if c = '<' then
        if inf.isSome then .err
        else parseLoop fuel rest (ps ||| 1) argv inf out
      else if c = '>' then
        if out.isSome then .err
        else parseLoop fuel rest (ps ||| 2) argv inf out
      else if c = squote ∨ c = dquote then
        match rest.dropWhile (fun d => d != c) with
        | [] => .err
        | _ :: rest3 =>
          match recordTok ps argv inf out
              (String.mk (rest.takeWhile (fun d => d != c))) with
          | none => .err
          | some (argv2, inf2, out2) =>
            if argv2.length ≥ 127 then .done argv2 inf2 out2 0
            else parseLoop fuel rest3 0 argv2 inf2 out2
      else
        match recordTok ps argv inf out
            (String.mk ((c :: rest).takeWhile (fun d => !(isDelim d)))) with
        | none => .err
        | some (argv2, inf2, out2) =>
          if argv2.length ≥ 127 then .done argv2 inf2 out2 0
          else parseLoop fuel
            (((c :: rest).dropWhile (fun d => !(isDelim d))).drop 1)
            0 argv2 inf2 out2

/-- Model of `enum builtins_t`. -/
inductive Builtin where
  | none
  | quit
  | jobs
  | bg
  | fg
deriving DecidableEq, Repr

/-- The built-in classification of `parseline` (lines 538-548), applied to
`argv[0]`. -/
def classifyBuiltin (s : String) : Builtin :=
  if s = "quit" then .quit
  else if s = "jobs" then .jobs
  else if s = "bg" then .bg
  else if s = "fg" then .fg
  else .none

/-- The check `*tok->argv[tok->argc-1] == '&'` (line 551): the first character of the
last token is `&`; an empty token reads its terminating NUL, which is not
`&`. -/
def headIsAmp (s : String) : Bool :=
  match s.toList.head? with
  | some c => c == '&'
  | Option.none => false

/-- Result of `parseline`: `error` models `return -1`; `blank` models the
`argc == 0` early `return 1` (builtins left unset); `ok bg argv inf out b`
models a normal return with background flag `bg`. -/
inductive ParseResult where
  | error
  | blank
  | ok (bg : Bool) (argv : List String) (inf out : Option String) (b : Builtin)
deriving DecidableEq, Repr

/-- The post-loop part of `parseline` (lines 527-554): a pending redirect
state is an error; an empty argument vector returns 1 early; the built-in is
classified from `argv[0]`; the job is a background job iff the first
character of the last token is `&`, in which case that token is removed. -/
def parselineFinish (argv : List String) (inf out : Option String)
    (ps : Nat) : ParseResult :=
  if ps ≠ 0 then .error
  else
    match argv.getLast? with
    | Option.none => .blank
    | some lastTok =>
      let b := classifyBuiltin (argv.headD "")
      if headIsAmp lastTok then .ok true argv.dropLast inf out b
      else .ok false argv inf out b

/-- Model of `parseline(cmdline, &tok)` (tsh.c lines 431-555). -/
def parseline (cmdline : String) : ParseResult :=
  match parseLoop (cmdline.length + 1) cmdline.toList 0 [] Option.none
      Option.none with
  | .err => .error
  | .done argv inf out ps => parselineFinish argv inf out ps

/-- The state left by launching 16 background jobs (pids 1..16) from the
initial state: every slot occupied. -/
def bgFill16 : ShellSt :=
  (List.range 16).foldl (fun s k => (addjob s ((k : Int) + 1) BG "mycmd &").1)
    initSt

/-- The state `twoFgTrace` leads to. -/
def twoFgSt : ShellSt :=
  match evRun initSt twoFgTrace with
  | .ok st => st
  | .fatalExit _ => initSt

/-- The state `dupJidTrace` leads to. -/
def dupJidSt : ShellSt :=
  match evRun initSt dupJidTrace with
  | .ok st => st
  | .fatalExit _ => initSt

/-- A jid-collision setup for the foreground wait: 15 background launches
(pids 1..15, jids 1..15), reap pid 2 (nextjid becomes 16), background
launch pid 16 (jid 16, nextjid wraps to 1), then a foreground launch
pid 17, which receives jid 1 while background pid 1 still holds jid 1. -/
def c4BugTrace : List Ev :=
  ((List.range 15).map (fun k => Ev.launch ((k : Int) + 1) true "mycmd &")) ++
    [.reap 2, .launch 16 true "mycmd &", .launch 17 false "sleep"]

/-- The state `c4BugTrace` leads to: foreground job pid 17 with jid 1,
background job pid 1 also with jid 1. -/
def c4BugSt : ShellSt :=
  match evRun initSt c4BugTrace with
  | .ok st => st
  | .fatalExit _ => initSt

/-- Resulting state of the foreground wait (the input state if it exits). -/
def fgWaitSt (st : ShellSt) (pid : Int) (res : WaitRes) : ShellSt :=
  match fgWait st pid res with
  | .ok (st1, _) => st1
  | .fatalExit _ => st

/-- Notices printed by the foreground wait. -/
def fgWaitNotes (st : ShellSt) (pid : Int) (res : WaitRes) : List Notice :=
  match fgWait st pid res with
  | .ok (_, notes) => notes
  | .fatalExit _ => []

/-- Whether the foreground wait hits a fatal `exit`. -/
def fgWaitFatal (st : ShellSt) (pid : Int) (res : WaitRes) : Bool :=
  match fgWait st pid res with
  | .ok _ => false
  | .fatalExit _ => true

/-- Resulting state of the SIGCHLD handler (the input state if it exits). -/
def handlerSt (zs : List Zombie) (running : Nat) (errno : Int)
    (st : ShellSt) : ShellSt :=
  match sigchld_handler zs running errno st with
  | .ok (st1, _) => st1
  | .fatalExit _ => st

/-- Whether the SIGCHLD handler hits the `unix_error` fatal exit. -/
def handlerFatal (zs : List Zombie) (running : Nat) (errno : Int)
    (st : ShellSt) : Bool :=
  match sigchld_handler zs running errno st with
  | .ok _ => false
  | .fatalExit _ => true

/-- Every live slot carries a strictly positive jid, and the `nextjid`
counter is strictly positive. -/
def JidInv (st : ShellSt) : Prop :=
  (∀ j ∈ st.jobs, j.pid ≠ 0 → 1 ≤ j.jid) ∧ 1 ≤ st.nextjid

/-- Every `unblock` among the given steps restores exactly `mask2` =
SIGINT and SIGTSTP. -/
def unblocksOnlyMask2 (steps : List MaskStep) : Bool :=
  steps.all (fun step =>
    match step with
    | .unblock s => s == evalMask2
    | _ => true)

end Tsh

namespace Tsh

/-- A scan for a pid no slot holds yields 0. -/
theorem pid2jidScan_of_no_match (pid : Int) (jobs : List Job)
    (h : ∀ j ∈ jobs, j.pid ≠ pid) : pid2jidScan pid jobs = 0 := by
  induction jobs with
  | nil => rfl
  | cons j rest ih =>
    have hj : j.pid ≠ pid := h j (List.mem_cons_self j rest)
    simp only [pid2jidScan, if_neg hj]
    exact ih (fun k hk => h k (List.mem_cons_of_mem j hk))

/-- A delete scan for a pid no slot holds fails. -/
theorem deletejobScan_of_no_match (pid : Int) (jobs : List Job)
    (h : ∀ j ∈ jobs, j.pid ≠ pid) : deletejobScan pid jobs = Option.none := by
  induction jobs with
  | nil => rfl
  | cons j rest ih =>
    have hj : j.pid ≠ pid := h j (List.mem_cons_self j rest)
    simp only [deletejobScan, if_neg hj]
    rw [ih (fun k hk => h k (List.mem_cons_of_mem j hk))]

/-- The insert scan fails on a table with no free slot. -/
theorem addjobScan_of_full (pid state : Int) (cmd : String) (nj : Int)
    (jobs : List Job) (h : ∀ j ∈ jobs, j.pid ≠ 0) :
    addjobScan pid state cmd nj jobs = Option.none := by
  induction jobs with
  | nil => rfl
  | cons j rest ih =>
    have hj : j.pid ≠ 0 := h j (List.mem_cons_self j rest)
    simp only [addjobScan, if_neg hj]
    rw [ih (fun k hk => h k (List.mem_cons_of_mem j hk))]

/-- Applying `pid2jid` to a pid no slot holds yields 0. -/
theorem pid2jid_of_no_match (st : ShellSt) (pid : Int)
    (h : ∀ j ∈ st.jobs, j.pid ≠ pid) : pid2jid st.jobs pid = 0 := by
  by_cases hlt : pid < 1
  · simp [pid2jid, hlt]
  · simp [pid2jid, hlt, pid2jidScan_of_no_match pid st.jobs h]

/-- Claim C1: the claim is false for `set_state`: on a pid not in the job
table, `change_job_state` does not report "not found" to its caller — it
prints the diagnostic and terminates the whole shell process via `exit(1)`.
Concretely, on the initial (empty) table and pid 5. -/
theorem C1_counterexample :
    pid2jid initSt.jobs 5 = 0 ∧
      change_job_state initSt 5 BG = CallOutcome.fatalExit 1 := by
  constructor <;> decide

/-- Claim C1 (amended): for every pid not present in the job table, `remove`
(`deletejob`) is a non-fatal no-op returning 0 and leaving the table
unchanged, while `set_state` (`change_job_state`) prints the
"Job not present in job list" diagnostic and terminates the shell process
with exit status 1. -/
theorem C1_unknown_pid (st : ShellSt) (pid ns : Int)
    (h : ∀ j ∈ st.jobs, j.pid ≠ pid) :
    deletejob st pid = (st, 0) ∧
      change_job_state st pid ns = CallOutcome.fatalExit 1 := by
  have hp : pid2jid st.jobs pid = 0 := pid2jid_of_no_match st pid h
  constructor
  · by_cases hlt : pid < 1
    · simp [deletejob, hlt]
    · simp [deletejob, hlt, deletejobScan_of_no_match pid st.jobs h]
  · simp [change_job_state, hp]

/-- Witness for C1 on the initial table and pid 5. -/
theorem C1_witness :
    deletejob initSt 5 = (initSt, 0) ∧
      change_job_state initSt 5 BG = CallOutcome.fatalExit 1 :=
  C1_unknown_pid initSt 5 BG (by decide)

/-- Claim C2: the claim describes the intent, but the code violates it: when
`execve` fails, the `Execve` wrapper (which performs no error check and no
exit) returns into `eval`, and for a foreground command the child process
proceeds through the shell's own parent-side logic and re-enters the
read/eval loop instead of terminating. -/
theorem C2_exec_failure_returns_into_shell :
    Execve false = ChildCont.retToCaller ∧
      (∀ st : ShellSt,
        childAfterExecCall st false false = ChildFate.reentersShellLoop) :=
  ⟨rfl, fun _ => rfl⟩

/-- Claim C3: the claim (and the invariant stated in tsh.c's own header
comment, "At most 1 job can be in the FG state") is violated: after
launching a foreground job, stopping it, resuming it with the `fg` built-in
(which marks it FG but returns to the prompt without waiting), and launching
a second foreground job, the job table holds two entries in state FG. -/
theorem C3_two_foreground_reachable :
    evRun initSt twoFgTrace = CallOutcome.ok twoFgSt ∧
      countFG twoFgSt.jobs = 2 := by
  constructor <;> decide

/-- Claim C6: inserting into a full job table (every slot occupied) fails
with return value 0, leaves the table and `nextjid` unchanged, and prints
the "Tried to create too many jobs" diagnostic; and after launching
capacity+1 = 17 background jobs, the 17th is rejected the same way: the
listing still has 16 live entries and no entry with pid 17. -/
theorem C6_full_table_insert_fails (st : ShellSt) (pid state : Int)
    (cmd : String) (hpid : 1 ≤ pid) (hfull : ∀ j ∈ st.jobs, j.pid ≠ 0) :
    addjob st pid state cmd = (st, 0, true) ∧
      addjob bgFill16 17 BG "mycmd &" = (bgFill16, 0, true) ∧
      liveCount bgFill16.jobs = 16 ∧
      getjobpid bgFill16.jobs 17 = Option.none := by
  refine ⟨?_, by decide, by decide, by decide⟩
  have hlt : ¬pid < 1 := by omega
  simp [addjob, hlt, addjobScan_of_full pid state cmd st.nextjid st.jobs hfull]

/-- Witness for C6 on the full table `bgFill16` and pid 99. -/
theorem C6_witness :
    addjob bgFill16 99 BG "extra &" = (bgFill16, 0, true) ∧
      addjob bgFill16 17 BG "mycmd &" = (bgFill16, 0, true) ∧
      liveCount bgFill16.jobs = 16 ∧
      getjobpid bgFill16.jobs 17 = Option.none :=
  C6_full_table_insert_fails bgFill16 99 BG "extra &" (by decide) (by decide)

/-- Scanning for a pid skips slots that do not hold it. -/
theorem pid2jidScan_append (p : Int) (pre rest : List Job)
    (h : ∀ k ∈ pre, k.pid ≠ p) :
    pid2jidScan p (pre ++ rest) = pid2jidScan p rest := by
  induction pre with
  | nil => rfl
  | cons k kpre ih =>
    simp only [List.cons_append, pid2jidScan,
      if_neg (h k (List.mem_cons_self k kpre))]
    exact ih (fun x hx => h x (List.mem_cons_of_mem k hx))

/-- Function `setStateByJid` skips slots whose jid differs. -/
theorem setStateByJid_append (jid ns : Int) (pre rest : List Job)
    (h : ∀ k ∈ pre, k.jid ≠ jid) :
    setStateByJid jid ns (pre ++ rest) = pre ++ setStateByJid jid ns rest := by
  induction pre with
  | nil => rfl
  | cons k kpre ih =>
    simp only [List.cons_append, setStateByJid,
      if_neg (h k (List.mem_cons_self k kpre)), List.append_eq]
    rw [ih (fun x hx => h x (List.mem_cons_of_mem k hx))]

/-- The delete scan skips slots whose pid differs. -/
theorem deletejobScan_append (p : Int) (pre rest : List Job)
    (h : ∀ k ∈ pre, k.pid ≠ p) :
    deletejobScan p (pre ++ rest) =
      (deletejobScan p rest).map (fun l => pre ++ l) := by
  induction pre with
  | nil =>
    rw [List.nil_append]
    cases deletejobScan p rest <;> simp
  | cons k kpre ih =>
    simp only [List.cons_append, deletejobScan,
      if_neg (h k (List.mem_cons_self k kpre)), List.append_eq]
    rw [ih (fun x hx => h x (List.mem_cons_of_mem k hx))]
    cases deletejobScan p rest <;> simp

/-- Function `find?` skips a prefix on which the predicate is false. -/
theorem find?_append_false (p : Job → Bool) (pre rest : List Job)
    (h : ∀ k ∈ pre, p k = false) :
    (pre ++ rest).find? p = rest.find? p := by
  induction pre with
  | nil => rfl
  | cons k kpre ih =>
    have hk : ¬p k = true := by simp [h k (List.mem_cons_self k kpre)]
    rw [List.cons_append, List.find?_cons_of_neg _ hk]
    exact ih (fun x hx => h x (List.mem_cons_of_mem k hx))

/-- Replacing one slot by another that also does not hold pid `q` leaves
`getjobpid q` unchanged. -/
theorem getjobpid_append_frame (pre post : List Job) (a b : Job) (q : Int)
    (hq1 : ¬q < 1 → (a.pid == q) = false)
    (hq2 : ¬q < 1 → (b.pid == q) = false) :
    getjobpid (pre ++ a :: post) q = getjobpid (pre ++ b :: post) q := by
  unfold getjobpid
  by_cases hlt : q < 1
  · rw [if_pos hlt, if_pos hlt]
  · rw [if_neg hlt, if_neg hlt]
    induction pre with
    | nil =>
      have h1 : ¬((fun j => j.pid == q) a = true) := by simp [hq1 hlt]
      have h2 : ¬((fun j => j.pid == q) b = true) := by simp [hq2 hlt]
      rw [List.nil_append, List.nil_append,
        List.find?_cons_of_neg (p := fun j : Job => j.pid == q) _ h1,
        List.find?_cons_of_neg (p := fun j : Job => j.pid == q) _ h2]
    | cons k kpre ih =>
      rw [List.cons_append, List.cons_append]
      by_cases hk : ((fun j => j.pid == q) k = true)
      · rw [List.find?_cons_of_pos (p := fun j : Job => j.pid == q) _ hk,
          List.find?_cons_of_pos (p := fun j : Job => j.pid == q) _ hk]
      · rw [List.find?_cons_of_neg (p := fun j : Job => j.pid == q) _ hk,
          List.find?_cons_of_neg (p := fun j : Job => j.pid == q) _ hk]
        exact ih

/-- Claim C4: the stop branch of the claim is false on reachable states
with duplicate jids (reachable per `C7_counterexample`).  After 15
background launches, reaping pid 2, a background launch (pid 16, after
which `nextjid` wraps to 1) and a foreground launch (pid 17, which gets
jid 1 while background pid 1 still holds jid 1), the stop outcome of the
foreground wait resolves pid 17 to jid 1 and `change_job_state`
(tsh.c lines 969-973) writes the FIRST slot with that jid: the background
job pid 1 is marked Stopped and the foreground job pid 17 stays
Foreground — the stopped foreground job does not get state ST, and a
background job's entry is altered by the foreground wait. -/
theorem C4_counterexample :
    evRun initSt c4BugTrace = CallOutcome.ok c4BugSt ∧
      getjobpid c4BugSt.jobs 17 = some (Job.mk 17 1 FG "sleep") ∧
      getjobpid c4BugSt.jobs 1 = some (Job.mk 1 1 BG "mycmd &") ∧
      fgWaitFatal c4BugSt 17 WaitRes.stopped = false ∧
      fgWaitNotes c4BugSt 17 WaitRes.stopped =
        [Notice.stoppedBySignal 1 17 SIGTSTP] ∧
      getjobpid (fgWaitSt c4BugSt 17 WaitRes.stopped).jobs 17 =
        some (Job.mk 17 1 FG "sleep") ∧
      getjobpid (fgWaitSt c4BugSt 17 WaitRes.stopped).jobs 1 =
        some (Job.mk 1 1 ST "mycmd &") := by
  refine ⟨by decide, by decide, by decide, by decide, by decide, by decide,
    by decide⟩

/-- Claim C4 (amended): the dispatcher's foreground wait calls
`waitpid(pid, &status, WUNTRACED)` on that specific child, and — for a job
table holding `pid`'s entry `jb` in some slot, PROVIDED no earlier slot
shares `pid` or `jb`'s jid (jid collisions are reachable and then the stop
branch marks the wrong job, see the counterexample) — behaves per outcome
as follows.  Stop: not fatal, exactly one stop notice, the job stays in the
table with state ST, and every other pid's lookup is unchanged (background
jobs are not consumed).  Signal termination: not fatal, exactly one
termination notice, the job is removed, other pids unchanged.  Normal exit:
not fatal, nothing printed, the job is removed, other pids unchanged. -/
theorem C4_fg_wait_outcomes (st : ShellSt) (pid : Int) (jb : Job)
    (pre post : List Job) (q sig : Int)
    (hjobs : st.jobs = pre ++ jb :: post)
    (hpid : jb.pid = pid)
    (hge : 1 ≤ pid)
    (hjid : 1 ≤ jb.jid)
    (hpre : ∀ k ∈ pre, k.pid ≠ pid ∧ k.jid ≠ jb.jid)
    (hpost : ∀ k ∈ post, k.pid ≠ pid)
    (hq : q ≠ pid) :
    fgWaitFatal st pid WaitRes.stopped = false ∧
      fgWaitNotes st pid WaitRes.stopped =
        [Notice.stoppedBySignal jb.jid pid SIGTSTP] ∧
      getjobpid (fgWaitSt st pid WaitRes.stopped).jobs pid =
        some { jb with state := ST } ∧
      getjobpid (fgWaitSt st pid WaitRes.stopped).jobs q =
        getjobpid st.jobs q ∧
      fgWaitFatal st pid (WaitRes.signaled sig) = false ∧
      fgWaitNotes st pid (WaitRes.signaled sig) =
        [Notice.terminatedBySignal jb.jid pid sig] ∧
      getjobpid (fgWaitSt st pid (WaitRes.signaled sig)).jobs pid =
        Option.none ∧
      getjobpid (fgWaitSt st pid (WaitRes.signaled sig)).jobs q =
        getjobpid st.jobs q ∧
      fgWaitFatal st pid WaitRes.exited = false ∧
      fgWaitNotes st pid WaitRes.exited = [] ∧
      getjobpid (fgWaitSt st pid WaitRes.exited).jobs pid = Option.none ∧
      getjobpid (fgWaitSt st pid WaitRes.exited).jobs q =
        getjobpid st.jobs q := by
  have hlt : ¬pid < 1 := by omega
  have hjz : ¬jb.jid = 0 := by omega
  have hpre1 : ∀ k ∈ pre, k.pid ≠ pid := fun k hk => (hpre k hk).1
  have hpreJ : ∀ k ∈ pre, k.jid ≠ jb.jid := fun k hk => (hpre k hk).2
  -- the pid resolves to jb's jid
  have h1 : pid2jid st.jobs pid = jb.jid := by
    unfold pid2jid
    rw [if_neg hlt, hjobs, pid2jidScan_append pid pre (jb :: post) hpre1]
    simp only [pid2jidScan, if_pos hpid]
  have hz : ¬pid2jid st.jobs pid = 0 := by rw [h1]; exact hjz
  -- the two notice printers succeed
  have hpr : print_sigtstp_job st.jobs pid SIGTSTP =
      CallOutcome.ok (Notice.stoppedBySignal jb.jid pid SIGTSTP) := by
    simp only [print_sigtstp_job, h1]
    rw [if_neg hjz]
  have hpi : print_sigint_job st.jobs pid sig =
      CallOutcome.ok (Notice.terminatedBySignal jb.jid pid sig) := by
    simp only [print_sigint_job, h1]
    rw [if_neg hjz]
  -- effect of change_job_state on the decomposed table
  have hcs : change_job_state st pid ST =
      CallOutcome.ok ⟨pre ++ { jb with state := ST } :: post, st.nextjid⟩ := by
    simp only [change_job_state, h1]
    rw [if_neg hjz, hjobs, setStateByJid_append jb.jid ST pre (jb :: post)
      hpreJ]
    simp only [setStateByJid, eq_self_iff_true, if_true]
  -- effect of deletejob on the decomposed table
  have hds : (deletejob st pid).1 =
      ⟨pre ++ emptyJob :: post, maxjid (pre ++ emptyJob :: post) + 1⟩ := by
    simp only [deletejob, if_neg hlt]
    rw [hjobs, deletejobScan_append pid pre (jb :: post) hpre1]
    simp only [deletejobScan, if_pos hpid]
    rfl
  -- the three outcome equations for fgWait
  have e1 : fgWait st pid WaitRes.stopped =
      CallOutcome.ok (⟨pre ++ { jb with state := ST } :: post, st.nextjid⟩,
        [Notice.stoppedBySignal jb.jid pid SIGTSTP]) := by
    simp only [fgWait, hpr, hcs]
  have e2 : fgWait st pid (WaitRes.signaled sig) =
      CallOutcome.ok
        (⟨pre ++ emptyJob :: post, maxjid (pre ++ emptyJob :: post) + 1⟩,
          [Notice.terminatedBySignal jb.jid pid sig]) := by
    simp only [fgWait, hpi, hds]
  have e3 : fgWait st pid WaitRes.exited =
      CallOutcome.ok
        (⟨pre ++ emptyJob :: post, maxjid (pre ++ emptyJob :: post) + 1⟩,
          []) := by
    simp only [fgWait, hds]
  -- getjobpid facts
  have hfalseP : ∀ k ∈ pre, ((fun j => j.pid == pid) k) = false :=
    fun k hk => beq_eq_false_iff_ne.mpr (hpre1 k hk)
  have gp1 : getjobpid (pre ++ { jb with state := ST } :: post) pid =
      some { jb with state := ST } := by
    unfold getjobpid
    rw [if_neg hlt,
      find?_append_false (fun j => j.pid == pid) pre
        ({ jb with state := ST } :: post) hfalseP,
      List.find?_cons_of_pos _ (by simp [hpid])]
  have gp2 : getjobpid (pre ++ emptyJob :: post) pid = Option.none := by
    unfold getjobpid
    rw [if_neg hlt,
      find?_append_false (fun j => j.pid == pid) pre (emptyJob :: post)
        hfalseP,
      List.find?_cons_of_neg _ (by simp [emptyJob]; omega)]
    exact List.find?_eq_none.mpr
      (fun x hx => by simp [beq_eq_false_iff_ne.mpr (hpost x hx)])
  have hqb : (jb.pid == q) = false :=
    beq_eq_false_iff_ne.mpr (by rw [hpid]; exact fun hc => hq hc.symm)
  have fr1 : getjobpid (pre ++ { jb with state := ST } :: post) q =
      getjobpid st.jobs q := by
    rw [hjobs]
    exact getjobpid_append_frame pre post _ jb q (fun _ => hqb) (fun _ => hqb)
  have fr2 : getjobpid (pre ++ emptyJob :: post) q = getjobpid st.jobs q := by
    rw [hjobs]
    exact getjobpid_append_frame pre post emptyJob jb q
      (fun hql => beq_eq_false_iff_ne.mpr (by show (0 : Int) ≠ q; omega))
      (fun _ => hqb)
  refine ⟨by simp only [fgWaitFatal, e1], by simp only [fgWaitNotes, e1],
    ?_, ?_, by simp only [fgWaitFatal, e2], by simp only [fgWaitNotes, e2],
    ?_, ?_, by simp only [fgWaitFatal, e3], by simp only [fgWaitNotes, e3],
    ?_, ?_⟩
  · simp only [fgWaitSt, e1]
    exact gp1
  · simp only [fgWaitSt, e1]
    exact fr1
  · simp only [fgWaitSt, e2]
    exact gp2
  · simp only [fgWaitSt, e2]
    exact fr2
  · simp only [fgWaitSt, e3]
    exact gp2
  · simp only [fgWaitSt, e3]
    exact fr2

/-- Witness for C4: a table holding the single foreground job pid 5 in slot
0, other pid 7, termination signal 9. -/
theorem C4_witness :
    fgWaitFatal (addjob initSt 5 FG "sleep").1 5 WaitRes.stopped = false ∧
      fgWaitNotes (addjob initSt 5 FG "sleep").1 5 WaitRes.stopped =
        [Notice.stoppedBySignal 1 5 SIGTSTP] ∧
      getjobpid (fgWaitSt (addjob initSt 5 FG "sleep").1 5
          WaitRes.stopped).jobs 5 = some (Job.mk 5 1 ST "sleep") ∧
      getjobpid (fgWaitSt (addjob initSt 5 FG "sleep").1 5
          WaitRes.stopped).jobs 7 =
        getjobpid ((addjob initSt 5 FG "sleep").1).jobs 7 ∧
      fgWaitFatal (addjob initSt 5 FG "sleep").1 5 (WaitRes.signaled 9) =
        false ∧
      fgWaitNotes (addjob initSt 5 FG "sleep").1 5 (WaitRes.signaled 9) =
        [Notice.terminatedBySignal 1 5 9] ∧
      getjobpid (fgWaitSt (addjob initSt 5 FG "sleep").1 5
          (WaitRes.signaled 9)).jobs 5 = Option.none ∧
      getjobpid (fgWaitSt (addjob initSt 5 FG "sleep").1 5
          (WaitRes.signaled 9)).jobs 7 =
        getjobpid ((addjob initSt 5 FG "sleep").1).jobs 7 ∧
      fgWaitFatal (addjob initSt 5 FG "sleep").1 5 WaitRes.exited = false ∧
      fgWaitNotes (addjob initSt 5 FG "sleep").1 5 WaitRes.exited = [] ∧
      getjobpid (fgWaitSt (addjob initSt 5 FG "sleep").1 5
          WaitRes.exited).jobs 5 = Option.none ∧
      getjobpid (fgWaitSt (addjob initSt 5 FG "sleep").1 5
          WaitRes.exited).jobs 7 =
        getjobpid ((addjob initSt 5 FG "sleep").1).jobs 7 :=
  C4_fg_wait_outcomes (addjob initSt 5 FG "sleep").1 5
    (Job.mk 5 1 FG "sleep") [] (List.replicate 15 emptyJob) 7 9
    (by decide) (by decide) (by decide) (by decide) (by decide) (by decide)
    (by decide)

/-- Deleting one pid leaves `pid2jid` of a different positive pid
unchanged. -/
theorem pid2jidScan_deletejobScan_other (p q : Int) (hp : 1 ≤ p)
    (hpq : p ≠ q) :
    ∀ jobs l : List Job, deletejobScan q jobs = some l →
      pid2jidScan p l = pid2jidScan p jobs := by
  intro jobs
  induction jobs with
  | nil =>
    intro l h
    exact Option.noConfusion h
  | cons j rest ih =>
    intro l h
    by_cases hj : j.pid = q
    · simp only [deletejobScan, if_pos hj, Option.some.injEq] at h
      subst h
      have h1 : ¬emptyJob.pid = p := by
        show ¬(0 : Int) = p
        omega
      have h2 : ¬j.pid = p := by
        rw [hj]
        exact fun hc => hpq hc.symm
      simp only [pid2jidScan, if_neg h1, if_neg h2]
    · simp only [deletejobScan, if_neg hj] at h
      cases hscan : deletejobScan q rest with
      | none =>
        simp only [hscan] at h
        exact Option.noConfusion h
      | some l2 =>
        simp only [hscan, Option.some.injEq] at h
        subst h
        by_cases hjp : j.pid = p
        · simp only [pid2jidScan, if_pos hjp]
        · simp only [pid2jidScan, if_neg hjp]
          exact ih l2 hscan

/-- Deleting one pid leaves `pid2jid` of a different positive pid
unchanged, at the `deletejob` level. -/
theorem pid2jid_deletejob_other (st : ShellSt) (p q : Int) (hp : 1 ≤ p)
    (hpq : p ≠ q) :
    pid2jid ((deletejob st q).1).jobs p = pid2jid st.jobs p := by
  by_cases hlt : q < 1
  · simp [deletejob, hlt]
  · simp only [deletejob, if_neg hlt]
    cases hscan : deletejobScan q st.jobs with
    | none => simp [hscan]
    | some l =>
      simp only [hscan]
      show pid2jid l p = pid2jid st.jobs p
      unfold pid2jid
      have hplt : ¬p < 1 := by omega
      rw [if_neg hplt, if_neg hplt]
      exact pid2jidScan_deletejobScan_other p q hp hpq st.jobs l hscan

/-- The SIGCHLD handler returns normally on a queue of zombies when no live
children remain: it reaps every queued child (deleting each from the table)
and ends with `waitpid` returning -1 with errno ECHILD, which does not
trigger `unix_error`. -/
theorem sigchld_handler_ok (zs : List Zombie) :
    ∀ (st : ShellSt) (errno : Int),
      (zs.map Zombie.pid).Nodup →
      (∀ z ∈ zs, 1 ≤ z.pid ∧ pid2jid st.jobs z.pid ≠ 0) →
      ∃ notes, sigchld_handler zs 0 errno st =
        CallOutcome.ok
          (zs.foldl (fun t z => (deletejob t z.pid).1) st, notes) := by
  induction zs with
  | nil =>
    intro st errno _ _
    exact ⟨[], by simp [sigchld_handler]⟩
  | cons z rest ih =>
    intro st errno hdist hlive
    have hz := hlive z (List.mem_cons_self z rest)
    have hdist' : (rest.map Zombie.pid).Nodup := by
      simp only [List.map_cons, List.nodup_cons] at hdist
      exact hdist.2
    have hnotmem : z.pid ∉ rest.map Zombie.pid := by
      simp only [List.map_cons, List.nodup_cons] at hdist
      exact hdist.1
    have hlive' : ∀ w ∈ rest, 1 ≤ w.pid ∧
        pid2jid ((deletejob st z.pid).1).jobs w.pid ≠ 0 := by
      intro w hw
      have hwl := hlive w (List.mem_cons_of_mem z hw)
      have hne : w.pid ≠ z.pid := by
        intro hc
        exact hnotmem (hc ▸ List.mem_map_of_mem Zombie.pid hw)
      refine ⟨hwl.1, ?_⟩
      rw [pid2jid_deletejob_other st w.pid z.pid hwl.1 hne]
      exact hwl.2
    obtain ⟨notes, hrec⟩ := ih (deletejob st z.pid).1 errno hdist' hlive'
    cases hsig : z.sig with
    | none =>
      refine ⟨notes, ?_⟩
      simp only [sigchld_handler, hsig, hrec, List.foldl_cons]
    | some s =>
      have hpr : print_sigint_job st.jobs z.pid s =
          CallOutcome.ok
            (Notice.terminatedBySignal (pid2jid st.jobs z.pid) z.pid s) := by
        simp only [print_sigint_job]
        rw [if_neg hz.2]
      refine
        ⟨Notice.terminatedBySignal (pid2jid st.jobs z.pid) z.pid s :: notes,
          ?_⟩
      simp only [sigchld_handler, hsig, hpr, hrec, List.foldl_cons]

/-- Claim C8: the "reaps every child until none remain" part of the claim
is false on reachable inputs.  A child can exist without a table entry:
`eval` forks before the parent-side `addjob`, which fails on a full table
(the overflow path of C6).  If such an untracked child (pid 99 here) dies
by a signal and is queued before a tracked zombie (pid 1), the handler's
`print_sigint_job` finds `pid2jid = 0` and hits the
"Job not present in job list" `exit(1)` (tsh.c lines 881-884): the shell
dies mid-loop and the tracked zombie is never reaped (its entry survives).
Also, with one live child remaining and entry errno 0, the final `waitpid`
returns 0 leaving errno unchanged, and the `errno != ECHILD` check calls
`unix_error` — fatal on a benign outcome. -/
theorem C8_counterexample :
    pid2jid ((addjob initSt 1 BG "a &").1).jobs 99 = 0 ∧
      sigchld_handler [⟨99, some 9⟩, ⟨1, Option.none⟩] 0 0
          (addjob initSt 1 BG "a &").1 = CallOutcome.fatalExit 1 ∧
      handlerFatal [⟨99, some 9⟩, ⟨1, Option.none⟩] 0 0
          (addjob initSt 1 BG "a &").1 = true ∧
      getjobpid (handlerSt [⟨99, some 9⟩, ⟨1, Option.none⟩] 0 0
          (addjob initSt 1 BG "a &").1).jobs 1 =
        some (Job.mk 1 1 BG "a &") ∧
      sigchld_handler [] 1 0 initSt = CallOutcome.fatalExit 1 := by
  refine ⟨by decide, by decide, by decide, by decide, by decide⟩

/-- Claim C8 (amended): PROVIDED every queued terminated child is
registered in the job table (untracked children are reachable via the
table-overflow fork, and then the handler exits the shell mid-loop, see
the counterexample) and no live children remain afterwards, the SIGCHLD
handler reaps every child with a pending terminated status via repeated
`waitpid(-1, &status, WNOHANG)` (each queued zombie is deleted from the
job table), without blocking, until none remain; and the ending ECHILD
outcome is treated as normal: the fatal `unix_error` path is not taken. -/
theorem C8_handler_reaps_all (zs : List Zombie) (st : ShellSt) (errno : Int)
    (hdist : (zs.map Zombie.pid).Nodup)
    (hlive : ∀ z ∈ zs, 1 ≤ z.pid ∧ pid2jid st.jobs z.pid ≠ 0) :
    handlerFatal zs 0 errno st = false ∧
      handlerSt zs 0 errno st =
        zs.foldl (fun t z => (deletejob t z.pid).1) st := by
  obtain ⟨notes, h⟩ := sigchld_handler_ok zs st errno hdist hlive
  constructor
  · simp only [handlerFatal, h]
  · simp only [handlerSt, h]

/-- Witness for C8: a table holding background pids 5 and 6; pid 5 was
terminated by signal 9, pid 6 exited normally; entry errno 0. -/
theorem C8_witness :
    handlerFatal [⟨5, some 9⟩, ⟨6, Option.none⟩] 0 0
        (addjob (addjob initSt 5 BG "a &").1 6 BG "b &").1 = false ∧
      handlerSt [⟨5, some 9⟩, ⟨6, Option.none⟩] 0 0
          (addjob (addjob initSt 5 BG "a &").1 6 BG "b &").1 =
        ([⟨5, some 9⟩, ⟨6, Option.none⟩] : List Zombie).foldl
          (fun t z => (deletejob t z.pid).1)
          (addjob (addjob initSt 5 BG "a &").1 6 BG "b &").1 :=
  C8_handler_reaps_all [⟨5, some 9⟩, ⟨6, Option.none⟩]
    (addjob (addjob initSt 5 BG "a &").1 6 BG "b &").1 0 (by decide)
    (by decide)

/-- Claim C5: in `eval`'s foreground path, SIGCHLD is blocked from before
the parent-side job registration (step index 1 of the trace) through the
return of the synchronous `waitpid` (step index 3), whatever the wait's
outcome and whatever was blocked on entry; and the only signals unblocked
before the wait completes are SIGINT and SIGTSTP (`mask2`), so the reaping
handler cannot run between registration and the wait's completion. -/
theorem C5_sigchld_blocked_until_wait (stoppedCase : Bool) (start : SigSet)
    (i : Nat) (h1 : 1 ≤ i) (h2 : i ≤ 4) :
    (blockedAfter start ((evalFgMaskTrace stoppedCase).take i)).chld = true ∧
      unblocksOnlyMask2 ((evalFgMaskTrace stoppedCase).take 4) = true := by
  constructor
  · interval_cases i <;> cases stoppedCase <;>
      simp [evalFgMaskTrace, blockedAfter, applyStep, evalMask, evalMask2]
  · cases stoppedCase <;> decide

/-- Witness for C5: the stopped-outcome trace, starting from an empty
blocked set, after three steps (registration done, mask2 restored). -/
theorem C5_witness :
    (blockedAfter ⟨false, false, false⟩
        ((evalFgMaskTrace true).take 3)).chld = true ∧
      unblocksOnlyMask2 ((evalFgMaskTrace true).take 4) = true :=
  C5_sigchld_blocked_until_wait true ⟨false, false, false⟩ 3 (by decide)
    (by decide)

/-- Claim C9: the claim is false: `parseline` tests only the FIRST character
of the last token (`*tok->argv[tok->argc-1] == '&'`).  On the command line
"echo &x" the last token is "&x", which is not exactly "&", yet the
background flag is set and the whole token is removed from the argument
vector. -/
theorem C9_counterexample :
    parseLoop ("echo &x".length + 1) "echo &x".toList 0 [] Option.none
        Option.none =
      LoopRes.done ["echo", "&x"] Option.none Option.none 0 ∧
    parseline "echo &x" =
      ParseResult.ok true ["echo"] Option.none Option.none Builtin.none ∧
    ("&x" : String) ≠ "&" := by
  refine ⟨by decide, by decide, by decide⟩

/-- Claim C9 (amended): for every command line whose tokenizing loop
succeeds with a nonempty argument vector, the background flag is true iff
the last token's first character is `&` (not necessarily the whole token),
and in that case that entire token is removed from the argument vector. -/
theorem C9_amended (s : String) (pre : List String) (lastTok : String)
    (inf out : Option String)
    (h : parseLoop (s.length + 1) s.toList 0 [] Option.none Option.none =
      LoopRes.done (pre ++ [lastTok]) inf out 0) :
    parseline s = ParseResult.ok (headIsAmp lastTok)
      (if headIsAmp lastTok then pre else pre ++ [lastTok]) inf out
      (classifyBuiltin ((pre ++ [lastTok]).headD "")) := by
  unfold parseline
  rw [h]
  show parselineFinish (pre ++ [lastTok]) inf out 0 = _
  unfold parselineFinish
  rw [if_neg (by simp), List.getLast?_concat]
  simp only [List.dropLast_concat]
  by_cases ha : headIsAmp lastTok
  · simp [ha]
  · simp [ha]

/-- Witness for C9 on the command line "ls -l &". -/
theorem C9_witness :
    parseline "ls -l &" =
      ParseResult.ok true ["ls", "-l"] Option.none Option.none Builtin.none := by
  have h := C9_amended "ls -l &" ["ls", "-l"] "&" Option.none Option.none
    (by decide)
  exact h.trans (by decide)

/-- The fold computing `maxjid` never drops below its accumulator. -/
theorem foldl_max_ge (jobs : List Job) (m : Int) :
    m ≤ jobs.foldl (fun acc j => if j.jid > acc then j.jid else acc) m := by
  induction jobs generalizing m with
  | nil => simp
  | cons j rest ih =>
    simp only [List.foldl_cons]
    have h1 : m ≤ (if j.jid > m then j.jid else m) := by split <;> omega
    exact le_trans h1 (ih _)

/-- Value of `maxjid` is nonnegative. -/
theorem maxjid_nonneg (jobs : List Job) : 0 ≤ maxjid jobs :=
  foldl_max_ge jobs 0

/-- What a successful insert scan produces: the wrapped counter, the new
entry with jid `nj`, and no other entries beyond the old ones. -/
theorem addjobScan_spec (pid state : Int) (cmd : String) (nj : Int) :
    ∀ (jobs jobs2 : List Job) (nj2 : Int),
      addjobScan pid state cmd nj jobs = some (jobs2, nj2) →
      nj2 = (if nj + 1 > (MAXJOBS : Int) then 1 else nj + 1) ∧
        (⟨pid, nj, state, cmd⟩ : Job) ∈ jobs2 ∧
        ∀ x ∈ jobs2, x = (⟨pid, nj, state, cmd⟩ : Job) ∨ x ∈ jobs := by
  intro jobs
  induction jobs with
  | nil => intro jobs2 nj2 h; simp [addjobScan] at h
  | cons j rest ih =>
    intro jobs2 nj2 h
    by_cases hj : j.pid = 0
    · simp only [addjobScan, if_pos hj, Option.some.injEq, Prod.mk.injEq] at h
      obtain ⟨hjobs, hnj⟩ := h
      subst hjobs
      refine ⟨hnj.symm, List.mem_cons_self _ _, ?_⟩
      intro x hx
      rcases List.mem_cons.mp hx with h1 | h1
      · exact Or.inl h1
      · exact Or.inr (List.mem_cons_of_mem j h1)
    · simp only [addjobScan, if_neg hj] at h
      cases hscan : addjobScan pid state cmd nj rest with
      | none =>
        simp only [hscan] at h
        exact Option.noConfusion h
      | some p =>
        obtain ⟨rest2, njr⟩ := p
        simp only [hscan, Option.some.injEq, Prod.mk.injEq] at h
        obtain ⟨hjobs, hnj⟩ := h
        subst hjobs
        obtain ⟨ih1, ih2, ih3⟩ := ih rest2 njr hscan
        refine ⟨hnj.symm.trans ih1, List.mem_cons_of_mem j ih2, ?_⟩
        intro x hx
        rcases List.mem_cons.mp hx with h1 | h1
        · exact Or.inr (by rw [h1]; exact List.mem_cons_self j rest)
        · rcases ih3 x h1 with h2 | h2
          · exact Or.inl h2
          · exact Or.inr (List.mem_cons_of_mem j h2)

/-- Function `setStateByJid` only changes states: every resulting entry has the pid
and jid of some original entry. -/
theorem setStateByJid_mem (jid ns : Int) (jobs : List Job) :
    ∀ x ∈ setStateByJid jid ns jobs,
      ∃ y ∈ jobs, x.pid = y.pid ∧ x.jid = y.jid := by
  induction jobs with
  | nil => intro x hx; simp [setStateByJid] at hx
  | cons j rest ih =>
    intro x hx
    by_cases hj : j.jid = jid
    · simp only [setStateByJid, if_pos hj] at hx
      rcases List.mem_cons.mp hx with h1 | h1
      · exact ⟨j, List.mem_cons_self j rest, by simp [h1]⟩
      · exact ⟨x, List.mem_cons_of_mem j h1, rfl, rfl⟩
    · simp only [setStateByJid, if_neg hj] at hx
      rcases List.mem_cons.mp hx with h1 | h1
      · exact ⟨j, List.mem_cons_self j rest, by simp [h1]⟩
      · obtain ⟨y, hy, hpy, hjy⟩ := ih x h1
        exact ⟨y, List.mem_cons_of_mem j hy, hpy, hjy⟩

/-- Entries of a successful delete scan are the cleared slot or old
entries. -/
theorem deletejobScan_mem (pid : Int) :
    ∀ (jobs l : List Job), deletejobScan pid jobs = some l →
      ∀ x ∈ l, x = emptyJob ∨ x ∈ jobs := by
  intro jobs
  induction jobs with
  | nil => intro l h; simp [deletejobScan] at h
  | cons j rest ih =>
    intro l h x hx
    by_cases hj : j.pid = pid
    · simp only [deletejobScan, if_pos hj, Option.some.injEq] at h
      subst h
      rcases List.mem_cons.mp hx with h1 | h1
      · exact Or.inl h1
      · exact Or.inr (List.mem_cons_of_mem j h1)
    · simp only [deletejobScan, if_neg hj] at h
      cases hscan : deletejobScan pid rest with
      | none =>
        simp only [hscan] at h
        exact Option.noConfusion h
      | some l2 =>
        simp only [hscan, Option.some.injEq] at h
        subst h
        rcases List.mem_cons.mp hx with h1 | h1
        · exact Or.inr (by rw [h1]; exact List.mem_cons_self j rest)
        · rcases ih l2 hscan x h1 with h2 | h2
          · exact Or.inl h2
          · exact Or.inr (List.mem_cons_of_mem j h2)

/-- Function `addjob` preserves jid positivity. -/
theorem addjob_JidInv (st : ShellSt) (pid state : Int) (cmd : String)
    (hinv : JidInv st) : JidInv (addjob st pid state cmd).1 := by
  obtain ⟨hjobs, hnext⟩ := hinv
  by_cases hlt : pid < 1
  · simp only [addjob, if_pos hlt]
    exact ⟨hjobs, hnext⟩
  · simp only [addjob, if_neg hlt]
    cases hscan : addjobScan pid state cmd st.nextjid st.jobs with
    | none =>
      simp only [hscan]
      exact ⟨hjobs, hnext⟩
    | some p =>
      obtain ⟨jobs2, nj2⟩ := p
      simp only [hscan]
      obtain ⟨h1, _, h3⟩ :=
        addjobScan_spec pid state cmd st.nextjid st.jobs jobs2 nj2 hscan
      show JidInv ⟨jobs2, nj2⟩
      constructor
      · intro x hx hpx
        rcases h3 x hx with h4 | h4
        · rw [h4]; exact hnext
        · exact hjobs x h4 hpx
      · show 1 ≤ nj2
        rw [h1]; split <;> omega

/-- Function `deletejob` preserves jid positivity. -/
theorem deletejob_JidInv (st : ShellSt) (pid : Int) (hinv : JidInv st) :
    JidInv (deletejob st pid).1 := by
  obtain ⟨hjobs, hnext⟩ := hinv
  by_cases hlt : pid < 1
  · simp only [deletejob, if_pos hlt]
    exact ⟨hjobs, hnext⟩
  · simp only [deletejob, if_neg hlt]
    cases hscan : deletejobScan pid st.jobs with
    | none =>
      simp only [hscan]
      exact ⟨hjobs, hnext⟩
    | some l =>
      simp only [hscan]
      show JidInv ⟨l, maxjid l + 1⟩
      constructor
      · intro x hx hpx
        rcases deletejobScan_mem pid st.jobs l hscan x hx with h1 | h1
        · exact absurd (by rw [h1]; rfl : x.pid = 0) hpx
        · exact hjobs x h1 hpx
      · show 1 ≤ maxjid l + 1
        have := maxjid_nonneg l
        omega

/-- Function `change_job_state` preserves jid positivity. -/
theorem change_job_state_JidInv (st st2 : ShellSt) (pid ns : Int)
    (h : change_job_state st pid ns = CallOutcome.ok st2) (hinv : JidInv st) :
    JidInv st2 := by
  obtain ⟨hjobs, hnext⟩ := hinv
  by_cases hz : pid2jid st.jobs pid = 0
  · simp [change_job_state, hz] at h
  · simp only [change_job_state, if_neg hz, CallOutcome.ok.injEq] at h
    subst h
    constructor
    · intro x hx hpx
      obtain ⟨y, hy, hpy, hjy⟩ :=
        setStateByJid_mem (pid2jid st.jobs pid) ns st.jobs x hx
      rw [hjy]
      exact hjobs y hy (by rw [← hpy]; exact hpx)
    · exact hnext

/-- Every dispatcher or handler event preserves jid positivity. -/
theorem evStep_JidInv (st st2 : ShellSt) (e : Ev)
    (hstep : evStep st e = CallOutcome.ok st2) (hinv : JidInv st) :
    JidInv st2 := by
  cases e with
  | launch pid bg cmd =>
    simp only [evStep, CallOutcome.ok.injEq] at hstep
    rw [← hstep]
    exact addjob_JidInv st pid (if bg then BG else FG) cmd hinv
  | waitStopped pid => exact change_job_state_JidInv st st2 pid ST hstep hinv
  | waitTerminated pid =>
    simp only [evStep, CallOutcome.ok.injEq] at hstep
    rw [← hstep]
    exact deletejob_JidInv st pid hinv
  | builtinFG pid => exact change_job_state_JidInv st st2 pid FG hstep hinv
  | builtinBG pid => exact change_job_state_JidInv st st2 pid BG hstep hinv
  | reap pid =>
    simp only [evStep, CallOutcome.ok.injEq] at hstep
    rw [← hstep]
    exact deletejob_JidInv st pid hinv

/-- Jid positivity holds in every state an event run reaches. -/
theorem evRun_JidInv (evs : List Ev) :
    ∀ st0 st : ShellSt, JidInv st0 → evRun st0 evs = CallOutcome.ok st →
      JidInv st := by
  induction evs with
  | nil =>
    intro st0 st h0 h
    simp only [evRun, CallOutcome.ok.injEq] at h
    rw [← h]
    exact h0
  | cons e rest ih =>
    intro st0 st h0 h
    simp only [evRun] at h
    cases hstep : evStep st0 e with
    | ok st1 =>
      simp only [hstep] at h
      exact ih st1 st (evStep_JidInv st0 st1 e hstep h0) h
    | fatalExit n =>
      simp only [hstep] at h
      exact CallOutcome.noConfusion h

/-- Claim C7: the distinctness and minimality parts of the claim are false:
after 15 inserts (jids 1..15), deleting pid 2 (nextjid becomes 16) and two
further inserts (jids 16 and — after the wraparound reset — 1), two live
jobs hold jid 1 at once, so live jids are neither pairwise distinct nor the
smallest unused positive integers. -/
theorem C7_counterexample :
    evRun initSt dupJidTrace = CallOutcome.ok dupJidSt ∧
      ¬(liveJids dupJidSt.jobs).Nodup ∧
      (liveJids dupJidSt.jobs).count 1 = 2 := by
  refine ⟨by decide, by decide, by decide⟩

/-- Claim C7 (amended): in every reachable state, live entries carry
strictly positive jids; a successful insertion stores the current counter
value as the new entry's jid and advances the counter with wraparound reset
to 1 when it would exceed capacity; a successful deletion recomputes the
counter as (max stored jid) + 1.  The original claim's distinctness and
no-gap consequences do not hold (see the counterexample). -/
theorem C7_amended (st st2 st3 : ShellSt) (evs : List Ev)
    (pid state pidD : Int) (cmd : String)
    (hreach : evRun initSt evs = CallOutcome.ok st)
    (hadd : addjob st pid state cmd = (st2, 1, false))
    (hdel : deletejob st pidD = (st3, 1)) :
    (∀ j ∈ st.jobs, j.pid ≠ 0 → 1 ≤ j.jid) ∧
      st2.nextjid =
        (if st.nextjid + 1 > (MAXJOBS : Int) then 1 else st.nextjid + 1) ∧
      (⟨pid, st.nextjid, state, cmd⟩ : Job) ∈ st2.jobs ∧
      st3.nextjid = maxjid st3.jobs + 1 := by
  refine ⟨(evRun_JidInv evs initSt st ⟨by decide, by decide⟩ hreach).1, ?_⟩
  constructor
  · -- counter advance of a successful addjob
    by_cases hlt : pid < 1
    · simp only [addjob, if_pos hlt] at hadd
      exact absurd (congrArg (fun p => p.2.1) hadd : (0 : Int) = 1) (by decide)
    · simp only [addjob, if_neg hlt] at hadd
      cases hscan : addjobScan pid state cmd st.nextjid st.jobs with
      | none =>
        simp only [hscan] at hadd
        exact absurd (congrArg (fun p => p.2.1) hadd : (0 : Int) = 1)
          (by decide)
      | some p =>
        obtain ⟨jobs2, nj2⟩ := p
        simp only [hscan] at hadd
        have hst : (⟨jobs2, nj2⟩ : ShellSt) = st2 :=
          congrArg (fun p => p.1) hadd
        rw [← hst]
        exact
          (addjobScan_spec pid state cmd st.nextjid st.jobs jobs2 nj2 hscan).1
  constructor
  · -- the new entry of a successful addjob
    by_cases hlt : pid < 1
    · simp only [addjob, if_pos hlt] at hadd
      exact absurd (congrArg (fun p => p.2.1) hadd : (0 : Int) = 1) (by decide)
    · simp only [addjob, if_neg hlt] at hadd
      cases hscan : addjobScan pid state cmd st.nextjid st.jobs with
      | none =>
        simp only [hscan] at hadd
        exact absurd (congrArg (fun p => p.2.1) hadd : (0 : Int) = 1)
          (by decide)
      | some p =>
        obtain ⟨jobs2, nj2⟩ := p
        simp only [hscan] at hadd
        have hst : (⟨jobs2, nj2⟩ : ShellSt) = st2 :=
          congrArg (fun p => p.1) hadd
        rw [← hst]
        exact
          (addjobScan_spec pid state cmd st.nextjid st.jobs jobs2 nj2
            hscan).2.1
  · -- counter recompute of a successful deletejob
    by_cases hlt : pidD < 1
    · simp only [deletejob, if_pos hlt] at hdel
      exact absurd (congrArg (fun p => p.2) hdel : (0 : Int) = 1) (by decide)
    · simp only [deletejob, if_neg hlt] at hdel
      cases hscan : deletejobScan pidD st.jobs with
      | none =>
        simp only [hscan] at hdel
        exact absurd (congrArg (fun p => p.2) hdel : (0 : Int) = 1) (by decide)
      | some l =>
        simp only [hscan] at hdel
        have hst : (⟨l, maxjid l + 1⟩ : ShellSt) = st3 :=
          congrArg (fun p => p.1) hdel
        rw [← hst]

/-- Witness for C7: one background launch (pid 1), then insert pid 5 and
delete pid 1 from the resulting state. -/
theorem C7_witness :
    1 ≤ (Job.mk 1 1 BG "first &").jid ∧
      ((addjob (addjob initSt 1 BG "first &").1 5 BG "x").1).nextjid =
        (if ((addjob initSt 1 BG "first &").1).nextjid + 1 > (MAXJOBS : Int)
          then 1 else ((addjob initSt 1 BG "first &").1).nextjid + 1) ∧
      (⟨5, ((addjob initSt 1 BG "first &").1).nextjid, BG, "x"⟩ : Job) ∈
        ((addjob (addjob initSt 1 BG "first &").1 5 BG "x").1).jobs ∧
      ((deletejob (addjob initSt 1 BG "first &").1 1).1).nextjid =
        maxjid ((deletejob (addjob initSt 1 BG "first &").1 1).1).jobs + 1 := by
  have h := C7_amended (addjob initSt 1 BG "first &").1
    (addjob (addjob initSt 1 BG "first &").1 5 BG "x").1
    (deletejob (addjob initSt 1 BG "first &").1 1).1
    [Ev.launch 1 true "first &"] 5 BG 1 "x" (by decide) (by decide) (by decide)
  exact ⟨h.1 (Job.mk 1 1 BG "first &") (by decide) (by decide), h.2.1,
    h.2.2.1, h.2.2.2⟩

/-- Claim C10: for every pid less than 1, `addjob` returns 0 leaving the job
table, its slots and the next-job-id counter unchanged (and prints no
diagnostic), and `deletejob` likewise returns 0 and leaves the table
unchanged; non-positive pids never create, alter, or remove a table entry. -/
theorem C10_nonpositive_pid_noop (st : ShellSt) (pid state : Int) (cmdline : String)
    (h : pid < 1) :
    addjob st pid state cmdline = (st, 0, false) ∧ deletejob st pid = (st, 0) := by
  constructor
  · simp [addjob, h]
  · simp [deletejob, h]

/-- Witness for C10 at pid 0 on the initial table. -/
theorem C10_witness :
    addjob initSt 0 BG "sleep 5 &" = (initSt, 0, false) ∧
      deletejob initSt 0 = (initSt, 0) :=
  C10_nonpositive_pid_noop initSt 0 BG "sleep 5 &" (by decide)

end Tsh
